import Mathlib

/-!
Verification development for the `RedisCache` type of async-rediscache
(`src/async_rediscache/types/cache.py`).

The cache operations are translated directly from `cache.py`.  The typestring
codec, the Redis hash commands and the namespace lock live in `base.py` and in
the Redis client, which are not part of the observed sources; those parts are
modelled from the specification (tagged strings with one discriminator per
type, first-match association-list hash semantics, per-namespace mutual
exclusion) and are marked `Modelled from the spec:` below.

State is passed explicitly: a namespace's hash is an association list of
encoded field/value strings, and every operation takes the hash before the
call and returns its result together with the hash after the call.  Python
exceptions become an `Except` error value (`TypeError` is the spec's
`UnsupportedTypeError`, `KeyError` the spec's `MissingKeyError`, and an
unrecognized tag on decode the spec's `CorruptDataError`).
-/

/-- Supported key kinds of the cache: strings and integers
(`RedisKeyType` in `base.py`, per the class docstring of `RedisCache`). -/
inductive RedisKey where
  | str (s : String)
  | int (n : Int)
deriving DecidableEq

/-- Supported value kinds: strings, integers, floats and booleans
(`RedisValueType`).  Python floats are modelled as rationals; the claims
about them concern the kind of the value, not IEEE rounding. -/
inductive RedisValue where
  | str (s : String)
  | int (n : Int)
  | float (q : Rat)
  | bool (b : Bool)
deriving DecidableEq

/-- Errors surfaced by cache operations, named as in the specification's
error taxonomy (§7): `TypeError` ↦ `unsupportedType`, `KeyError` ↦
`missingKey`, unknown tag on decode ↦ `corruptData`. -/
inductive RedisError where
  | unsupportedType
  | corruptData
  | missingKey
deriving DecidableEq

/-- A Python number as passed for `amount`: an `int` or a `float`. -/
inductive PyNum where
  | int (n : Int)
  | float (q : Rat)
deriving DecidableEq

/-- Python unary minus on a number, preserving its kind (`-amount` in
`decrement`). -/
def pyNeg : PyNum → PyNum
  | .int n => .int (-n)
  | .float q => .float (-q)

/-- The decimal digit character for `d % 10`. -/
def digitChar : Nat → Char
  | 0 => '0' | 1 => '1' | 2 => '2' | 3 => '3' | 4 => '4'
  | 5 => '5' | 6 => '6' | 7 => '7' | 8 => '8' | _ => '9'

/-- Parse one decimal digit character (code points 48-57). -/
def charDigit? (c : Char) : Option Nat :=
  if 48 ≤ c.toNat ∧ c.toNat ≤ 57 then some (c.toNat - 48) else none

/-- Little-endian decimal digits of `n`, with `fuel` bounding the recursion
structurally (any `fuel ≥ n` yields all digits; `natChars` passes `n`). -/
def natCharsGo : Nat → Nat → List Char
  | _, 0 => []
  | 0, _ + 1 => []
  | fuel + 1, n + 1 => digitChar ((n + 1) % 10) :: natCharsGo fuel ((n + 1) / 10)

/-- Canonical decimal form of a natural number, most significant digit
first; `0` is `"0"`. -/
def natChars (n : Nat) : List Char :=
  if n = 0 then ['0'] else (natCharsGo n n).reverse

/-- Canonical decimal form of an integer, with a leading `-` when
negative. -/
def intChars (i : Int) : List Char :=
  if i < 0 then '-' :: natChars i.natAbs else natChars i.natAbs

/-- Canonical textual form of a rational: numerator, `/`, denominator. -/
def ratChars (q : Rat) : List Char :=
  intChars q.num ++ '/' :: natChars q.den

/-- Canonical textual form of a Python boolean (`str(True)`/`str(False)`). -/
def boolChars (b : Bool) : List Char :=
  if b then ['T', 'r', 'u', 'e'] else ['F', 'a', 'l', 's', 'e']

/-- Accumulating decimal parser: folds digits into `acc`, failing on any
non-digit character. -/
def parseNatAcc : Nat → List Char → Option Nat
  | acc, [] => some acc
  | acc, c :: cs =>
    match charDigit? c with
    | some d => parseNatAcc (acc * 10 + d) cs
    | none => none

/-- Parse a nonempty all-digits string as a natural number. -/
def parseNatChars (l : List Char) : Option Nat :=
  if l.isEmpty then none else parseNatAcc 0 l

/-- Parse an optional leading `-` followed by decimal digits. -/
def parseIntChars (l : List Char) : Option Int :=
  match l with
  | [] => none
  | c :: rest =>
    if c = '-' then (parseNatChars rest).map (fun n => -(Int.ofNat n))
    else (parseNatChars (c :: rest)).map (fun n => Int.ofNat n)

/-- Split a character list at its first `/`, returning the parts before and
after it; fails when no `/` occurs. -/
def splitAtSlash : List Char → Option (List Char × List Char)
  | [] => none
  | c :: rest =>
    if c = '/' then some ([], rest)
    else (splitAtSlash rest).map (fun p => (c :: p.1, p.2))

/-- Parse `num/den` as a rational. -/
def parseRatChars (l : List Char) : Option Rat :=
  match splitAtSlash l with
  | none => none
  | some (numPart, denPart) =>
    match parseIntChars numPart, parseNatChars denPart with
    | some i, some d => if d = 0 then none else some ((i : Rat) / (d : Rat))
    | _, _ => none

/-- Parse the textual form of a Python boolean. -/
def parseBoolChars (l : List Char) : Option Bool :=
  if l = ['T', 'r', 'u', 'e'] then some true
  else if l = ['F', 'a', 'l', 's', 'e'] then some false
  else none

/-- Modelled from the spec: `_value_to_typestring` of `base.py` (not under
`src/`).  Per §4.1/§6 each supported value kind gets its own fixed
discriminator followed by the canonical textual form of the value, so that
decoding is the exact inverse of encoding and booleans never collide with
integers. -/
def value_to_typestring : RedisValue → String
  | .str s => String.mk ('s' :: '|' :: s.data)
  | .int n => String.mk ('i' :: '|' :: intChars n)
  | .float q => String.mk ('f' :: '|' :: ratChars q)
  | .bool b => String.mk ('b' :: '|' :: boolChars b)

/-- Modelled from the spec: `_value_from_typestring` of `base.py` (not under
`src/`).  Dispatches on the discriminator; an unrecognized tag is the
spec's `CorruptDataError`, here `none`. -/
def value_from_typestring (ts : String) : Option RedisValue :=
  match ts.data with
  | c₁ :: c₂ :: rest =>
    if c₂ = '|' then
      if c₁ = 's' then some (.str (String.mk rest))
      else if c₁ = 'i' then (parseIntChars rest).map RedisValue.int
      else if c₁ = 'f' then (parseRatChars rest).map RedisValue.float
      else if c₁ = 'b' then (parseBoolChars rest).map RedisValue.bool
      else none
    else none
  | _ => none

/-- Modelled from the spec: `_key_to_typestring` of `base.py` (not under
`src/`); same tag scheme restricted to the two key kinds. -/
def key_to_typestring : RedisKey → String
  | .str s => String.mk ('s' :: '|' :: s.data)
  | .int n => String.mk ('i' :: '|' :: intChars n)

/-- Modelled from the spec: `_key_from_typestring` of `base.py` (not under
`src/`). -/
def key_from_typestring (ts : String) : Option RedisKey :=
  match ts.data with
  | c₁ :: c₂ :: rest =>
    if c₂ = '|' then
      if c₁ = 's' then some (.str (String.mk rest))
      else if c₁ = 'i' then (parseIntChars rest).map RedisKey.int
      else none
    else none
  | _ => none

/-- One namespace's hash in the store: an association list from encoded
field strings to encoded value strings.  Redis keeps fields unique; all
operations below use first-occurrence semantics. -/
abbrev Hash := List (String × String)

/-- Modelled from the spec: the store's hash-get command (`HGET`). -/
def hget : Hash → String → Option String
  | [], _ => none
  | (g, w) :: t, f => if g = f then some w else hget t f

/-- Modelled from the spec: the store's hash-set command (`HSET`) —
replaces the value of an existing field, appends a new field otherwise. -/
def hset : Hash → String → String → Hash
  | [], f, v => [(f, v)]
  | (g, w) :: t, f, v => if g = f then (f, v) :: t else (g, w) :: hset t f v

/-- Modelled from the spec: the store's hash-delete command (`HDEL`) —
existence-tolerant; returns the updated hash and the number of fields
removed (the integer `HDEL` replies with). -/
def hdel : Hash → String → Hash × Nat
  | [], _ => ([], 0)
  | (g, w) :: t, f =>
    let r := hdel t f
    if g = f then (r.1, r.2 + 1) else ((g, w) :: r.1, r.2)

/-- Modelled from the spec: the store's hash-exists command (`HEXISTS`). -/
def hexists (h : Hash) (f : String) : Bool :=
  (hget h f).isSome

/-- Modelled from the spec: the store's hash-multi-set command
(`hmset_dict`): sets every listed field. -/
def hmset (h : Hash) (kvs : List (String × String)) : Hash :=
  kvs.foldl (fun acc p => hset acc p.1 p.2) h

/-- Element-wise encoding of a mapping (`_dict_to_typestring`); modelled
from the spec, `base.py` not under `src/`. -/
def dict_to_typestring (m : List (RedisKey × RedisValue)) : List (String × String) :=
  m.map (fun kv => (key_to_typestring kv.1, value_to_typestring kv.2))

/-- Element-wise decoding of one stored pair. -/
def pair_from_typestring (p : String × String) : Option (RedisKey × RedisValue) :=
  match key_from_typestring p.1, value_from_typestring p.2 with
  | some k, some v => some (k, v)
  | _, _ => none

/-- Element-wise decoding of a stored hash (`_dict_from_typestring`);
modelled from the spec, `base.py` not under `src/`. -/
def dict_from_typestring (h : Hash) : Option (List (RedisKey × RedisValue)) :=
  h.mapM pair_from_typestring

namespace RedisCache

/-- `RedisCache.set` (cache.py:70-79): encode key and value, write one
field of the namespace hash. -/
def set (h : Hash) (key : RedisKey) (value : RedisValue) : Hash :=
  hset h (key_to_typestring key) (value_to_typestring value)

/-- `RedisCache.get` (cache.py:81-98): encode the key, fetch the field;
a missing field yields `default`, otherwise the stored string is decoded. -/
def get (h : Hash) (key : RedisKey) (default : Option RedisValue) :
    Except RedisError (Option RedisValue) :=
  match hget h (key_to_typestring key) with
  | none => .ok default
  | some ts =>
    match value_from_typestring ts with
    | none => .error .corruptData
    | some v => .ok (some v)

/-- `RedisCache.delete` (cache.py:100-113).  Note the source `return`s the
result of the `HDEL` command — the count of removed fields — despite the
`-> None` annotation, so the pair below carries that count as the
operation's return value. -/
def delete (h : Hash) (key : RedisKey) : Hash × Nat :=
  hdel h (key_to_typestring key)

/-- `RedisCache.contains` (cache.py:115-127). -/
def contains (h : Hash) (key : RedisKey) : Bool :=
  hexists h (key_to_typestring key)

/-- `RedisCache.items` (cache.py:129-150): decode every stored pair into a
fresh collection. -/
def items (h : Hash) : Except RedisError (List (RedisKey × RedisValue)) :=
  match dict_from_typestring h with
  | some l => .ok l
  | none => .error .corruptData

/-- `RedisCache.length` (cache.py:152-158). -/
def length (h : Hash) : Nat :=
  h.length

/-- `RedisCache.to_dict` (cache.py:160-163): materializes `items` (the
inner call suppresses re-acquiring the lock). -/
def to_dict (h : Hash) : Except RedisError (List (RedisKey × RedisValue)) :=
  items h

/-- `RedisCache.clear` (cache.py:165-170): whole-key delete of the
namespace. -/
def clear (_ : Hash) : Hash :=
  []

/-- `RedisCache.pop` (cache.py:172-186): `get` with the default, then
`delete` (both with the lock already held); returns the `get` result. -/
def pop (h : Hash) (key : RedisKey) (default : Option RedisValue) :
    Except RedisError (Option RedisValue × Hash) :=
  match get h key default with
  | .error e => .error e
  | .ok v => .ok (v, (delete h key).1)

/-- `RedisCache.update` (cache.py:188-203): encode the whole mapping, issue
one multi-field write. -/
def update (h : Hash) (m : List (RedisKey × RedisValue)) : Hash :=
  hmset h (dict_to_typestring m)

/-- The guard `isinstance(value, int) or isinstance(value, float)` of
cache.py:227.  In Python `bool` is a subclass of `int`, so a decoded
boolean passes this check. -/
def isinstance_int_or_float : RedisValue → Bool
  | .int _ => true
  | .float _ => true
  | .bool _ => true
  | .str _ => false

/-- The integer a Python boolean stands for in arithmetic. -/
def boolInt (b : Bool) : Int :=
  if b then 1 else 0

/-- Python `value + amount` for a numeric stored value (cache.py:228):
`int + int` stays `int`, any `float` operand makes the sum a `float`, and
a boolean contributes its integer value. -/
def py_add : RedisValue → PyNum → RedisValue
  | .int n, .int m => .int (n + m)
  | .int n, .float q => .float ((n : Rat) + q)
  | .float p, .int m => .float (p + (m : Rat))
  | .float p, .float q => .float (p + q)
  | .bool b, .int m => .int (boolInt b + m)
  | .bool b, .float q => .float ((boolInt b : Rat) + q)
  | .str s, _ => .str s

/-- `RedisCache.increment` (cache.py:205-233): `get` the value (lock held);
`None` raises `KeyError`; a value passing the `isinstance` guard is
incremented and `set` back; anything else raises `TypeError`.  An error
leaves the hash untouched — the exception is raised before any write. -/
def increment (h : Hash) (key : RedisKey) (amount : PyNum) :
    Except RedisError Hash :=
  match get h key none with
  | .error e => .error e
  | .ok none => .error .missingKey
  | .ok (some value) =>
    if isinstance_int_or_float value then
      .ok (set h key (py_add value amount))
    else
      .error .unsupportedType

/-- `RedisCache.decrement` (cache.py:235-241): `increment` with the negated
amount. -/
def decrement (h : Hash) (key : RedisKey) (amount : PyNum) :
    Except RedisError Hash :=
  increment h key (pyNeg amount)

end RedisCache

deriving instance DecidableEq for Except

/-- State of two in-flight `increment` calls on one namespace: the shared
hash plus each task's local `value` variable (the result of its inner
`get`, cache.py:218), `Except.ok none` before the task has read. -/
structure IncDuelState where
  hash : Hash
  regA : Except RedisError (Option RedisValue)
  regB : Except RedisError (Option RedisValue)

/-- The first store command of one `increment` call: the inner `get`
(cache.py:218), recorded into the calling task's local variable. -/
def incReadStep (key : RedisKey) (s : IncDuelState) (taskB : Bool) : IncDuelState :=
  if taskB then { s with regB := RedisCache.get s.hash key none }
  else { s with regA := RedisCache.get s.hash key none }

/-- The second store command of one `increment` call: the guarded
write-back (cache.py:221-233).  A `None` or non-numeric read raises before
any write, so the hash is untouched in those cases. -/
def incWriteStep (key : RedisKey) (amount : PyNum) (s : IncDuelState)
    (taskB : Bool) : IncDuelState :=
  match (if taskB then s.regB else s.regA) with
  | .ok (some v) =>
    if RedisCache.isinstance_int_or_float v then
      { s with hash := RedisCache.set s.hash key (RedisCache.py_add v amount) }
    else s
  | _ => s

/-- Run an interleaving of two `increment key amount` tasks.  The schedule
lists which task owns each event (`false` = task A, `true` = task B); a
task's first event is its read, its second the write-back.  `doneA`/`doneB`
count the events each task has already executed. -/
def runIncSched (key : RedisKey) (amount : PyNum) :
    List Bool → Nat → Nat → IncDuelState → IncDuelState
  | [], _, _, s => s
  | t :: rest, doneA, doneB, s =>
    if t then
      let s' := if doneB = 0 then incReadStep key s true
                else incWriteStep key amount s true
      runIncSched key amount rest doneA (doneB + 1) s'
    else
      let s' := if doneA = 0 then incReadStep key s false
                else incWriteStep key amount s false
      runIncSched key amount rest (doneA + 1) doneB s'

/-- Number of task switches along a schedule. -/
def schedSwitches : List Bool → Nat
  | a :: b :: rest => (if a = b then 0 else 1) + schedSwitches (b :: rest)
  | _ => 0

/-- Modelled from the spec: the `namespace_lock` of `base.py` (not under
`src/`).  Per §4.2/§5 each public `increment` holds the namespace lock from
its inner `get` through its write-back, so in any schedule the scheduler
can permit, each task's two store commands are contiguous.  With two tasks
of two events each, both blocks are contiguous exactly when the schedule
switches task at most once. -/
abbrev lockRespecting (sched : List Bool) : Prop :=
  schedSwitches sched ≤ 1

theorem charDigit?_digitChar {d : Nat} (h : d < 10) :
    charDigit? (digitChar d) = some d := by
  interval_cases d <;> rfl

theorem parseNatAcc_append (l₁ l₂ : List Char) : ∀ acc : Nat,
    parseNatAcc acc (l₁ ++ l₂) =
      (parseNatAcc acc l₁).bind (fun x => parseNatAcc x l₂) := by
  induction l₁ with
  | nil => intro acc; rfl
  | cons c cs ih =>
    intro acc
    simp only [List.cons_append, parseNatAcc]
    cases hc : charDigit? c with
    | none => rfl
    | some d => exact ih _

theorem parseNatAcc_natCharsGo (fuel : Nat) : ∀ n acc : Nat, n ≤ fuel →
    parseNatAcc acc ((natCharsGo fuel n).reverse) =
      some (acc * 10 ^ (natCharsGo fuel n).length + n) := by
  induction fuel with
  | zero =>
    intro n acc hn
    interval_cases n
    simp [natCharsGo, parseNatAcc]
  | succ f ih =>
    intro n acc hn
    match n with
    | 0 => simp [natCharsGo, parseNatAcc]
    | m + 1 =>
      have hdiv : (m + 1) / 10 ≤ f := by
        have := Nat.div_lt_self (Nat.succ_pos m) (show 1 < 10 by norm_num)
        omega
      have hmod : (m + 1) % 10 < 10 := Nat.mod_lt _ (by norm_num)
      have hdm : 10 * ((m + 1) / 10) + (m + 1) % 10 = m + 1 :=
        Nat.div_add_mod (m + 1) 10
      simp only [natCharsGo, List.reverse_cons, parseNatAcc_append,
        ih ((m + 1) / 10) acc hdiv, Option.some_bind, parseNatAcc,
        charDigit?_digitChar hmod, List.length_cons]
      congr 1
      rw [pow_succ, ← mul_assoc]
      generalize acc * 10 ^ (natCharsGo f ((m + 1) / 10)).length = A
      omega

theorem natChars_ne_nil (n : Nat) : natChars n ≠ [] := by
  unfold natChars
  split
  · simp
  · next h =>
    obtain ⟨m, rfl⟩ : ∃ m, n = m + 1 := ⟨n - 1, by omega⟩
    simp [natCharsGo]

theorem parseNatChars_natChars (n : Nat) : parseNatChars (natChars n) = some n := by
  by_cases h : n = 0
  · subst h; rfl
  · obtain ⟨m, rfl⟩ : ∃ m, n = m + 1 := ⟨n - 1, by omega⟩
    unfold natChars
    rw [if_neg h]
    unfold parseNatChars
    rw [if_neg (by
      simp only [List.isEmpty_eq_true, List.reverse_eq_nil_iff]
      simp [natCharsGo])]
    rw [parseNatAcc_natCharsGo (m + 1) (m + 1) 0 (le_refl _)]
    simp

theorem mem_natCharsGo (fuel : Nat) : ∀ n c, c ∈ natCharsGo fuel n →
    ∃ d, d < 10 ∧ c = digitChar d := by
  induction fuel with
  | zero =>
    intro n c hc
    cases n <;> simp [natCharsGo] at hc
  | succ f ih =>
    intro n c hc
    match n with
    | 0 => simp [natCharsGo] at hc
    | m + 1 =>
      simp only [natCharsGo, List.mem_cons] at hc
      rcases hc with rfl | hc
      · exact ⟨(m + 1) % 10, Nat.mod_lt _ (by norm_num), rfl⟩
      · exact ih _ _ hc

theorem mem_natChars {n : Nat} {c : Char} (hc : c ∈ natChars n) :
    ∃ d, d < 10 ∧ c = digitChar d := by
  unfold natChars at hc
  split at hc
  · simp only [List.mem_singleton] at hc
    exact ⟨0, by norm_num, hc⟩
  · rw [List.mem_reverse] at hc
    exact mem_natCharsGo _ _ _ hc

theorem digitChar_ne_dash {d : Nat} (h : d < 10) : digitChar d ≠ '-' := by
  interval_cases d <;> decide

theorem digitChar_ne_slash {d : Nat} (h : d < 10) : digitChar d ≠ '/' := by
  interval_cases d <;> decide

theorem parseIntChars_intChars (i : Int) : parseIntChars (intChars i) = some i := by
  unfold intChars
  split
  · next hneg =>
    have hred : parseIntChars ('-' :: natChars i.natAbs)
        = (parseNatChars (natChars i.natAbs)).map (fun n => -(Int.ofNat n)) := rfl
    rw [hred, parseNatChars_natChars, Option.map_some']
    congr 1
    simp only [Int.ofNat_eq_coe]
    omega
  · next hpos =>
    obtain ⟨c, rest, hcr⟩ : ∃ c rest, natChars i.natAbs = c :: rest := by
      cases hh : natChars i.natAbs with
      | nil => exact absurd hh (natChars_ne_nil _)
      | cons c rest => exact ⟨c, rest, rfl⟩
    have hcmem : c ∈ natChars i.natAbs := by
      rw [hcr]; exact List.mem_cons_self _ _
    obtain ⟨d, hd, rfl⟩ := mem_natChars hcmem
    have hred : parseIntChars (digitChar d :: rest)
        = (parseNatChars (digitChar d :: rest)).map (fun n => Int.ofNat n) := by
      simp only [parseIntChars, if_neg (digitChar_ne_dash hd)]
    rw [hcr, hred, ← hcr, parseNatChars_natChars, Option.map_some']
    congr 1
    simp only [Int.ofNat_eq_coe]
    omega

theorem splitAtSlash_append (l₁ l₂ : List Char) (h : ∀ c ∈ l₁, c ≠ '/') :
    splitAtSlash (l₁ ++ '/' :: l₂) = some (l₁, l₂) := by
  induction l₁ with
  | nil => simp [splitAtSlash]
  | cons c cs ih =>
    have hc : c ≠ '/' := h c (List.mem_cons_self _ _)
    simp only [List.cons_append, splitAtSlash, if_neg hc, List.append_eq]
    rw [ih (fun x hx => h x (List.mem_cons_of_mem _ hx))]
    rfl

theorem mem_intChars_ne_slash {i : Int} {c : Char} (hc : c ∈ intChars i) :
    c ≠ '/' := by
  unfold intChars at hc
  split at hc
  · rcases List.mem_cons.mp hc with rfl | hc
    · decide
    · obtain ⟨d, hd, rfl⟩ := mem_natChars hc
      exact digitChar_ne_slash hd
  · obtain ⟨d, hd, rfl⟩ := mem_natChars hc
    exact digitChar_ne_slash hd

theorem parseRatChars_ratChars (q : Rat) : parseRatChars (ratChars q) = some q := by
  unfold ratChars parseRatChars
  rw [splitAtSlash_append _ _ (fun c hc => mem_intChars_ne_slash hc)]
  simp only [parseIntChars_intChars, parseNatChars_natChars]
  rw [if_neg q.den_nz]
  rw [Rat.num_div_den]

theorem parseBoolChars_boolChars (b : Bool) :
    parseBoolChars (boolChars b) = some b := by
  cases b <;> rfl

theorem value_from_to : ∀ v : RedisValue,
    value_from_typestring (value_to_typestring v) = some v
  | .str s => rfl
  | .int n => by
    show (parseIntChars (intChars n)).map RedisValue.int = some (.int n)
    rw [parseIntChars_intChars]; rfl
  | .float q => by
    show (parseRatChars (ratChars q)).map RedisValue.float = some (.float q)
    rw [parseRatChars_ratChars]; rfl
  | .bool b => by cases b <;> rfl

theorem key_from_to : ∀ k : RedisKey,
    key_from_typestring (key_to_typestring k) = some k
  | .str s => rfl
  | .int n => by
    show (parseIntChars (intChars n)).map RedisKey.int = some (.int n)
    rw [parseIntChars_intChars]; rfl

theorem key_to_typestring_inj {a b : RedisKey}
    (h : key_to_typestring a = key_to_typestring b) : a = b := by
  have ha := key_from_to a
  rw [h, key_from_to b] at ha
  exact (Option.some.inj ha).symm

theorem hget_hset_self (h : Hash) (f v : String) :
    hget (hset h f v) f = some v := by
  induction h with
  | nil => simp [hset, hget]
  | cons p t ih =>
    obtain ⟨g, w⟩ := p
    by_cases hg : g = f
    · simp [hset, hget, hg]
    · simp [hset, hget, hg, ih]

theorem hget_hset_ne (h : Hash) (f f' v : String) (hne : f' ≠ f) :
    hget (hset h f v) f' = hget h f' := by
  induction h with
  | nil => simp [hset, hget, Ne.symm hne]
  | cons p t ih =>
    obtain ⟨g, w⟩ := p
    by_cases hg : g = f
    · subst hg
      simp [hset, hget, Ne.symm hne]
    · simp [hset, hget, hg, ih]

theorem hget_hdel_self (h : Hash) (f : String) :
    hget (hdel h f).1 f = none := by
  induction h with
  | nil => simp [hdel, hget]
  | cons p t ih =>
    obtain ⟨g, w⟩ := p
    by_cases hg : g = f
    · simp [hdel, hg, ih]
    · simp [hdel, hget, hg, ih]

theorem hdel_absent (h : Hash) (f : String) (hab : hget h f = none) :
    hdel h f = (h, 0) := by
  induction h with
  | nil => rfl
  | cons p t ih =>
    obtain ⟨g, w⟩ := p
    by_cases hg : g = f
    · simp [hget, hg] at hab
    · simp only [hget, if_neg hg] at hab
      simp [hdel, hg, ih hab]

theorem contains_false_iff (h : Hash) (k : RedisKey) :
    RedisCache.contains h k = false ↔ hget h (key_to_typestring k) = none := by
  unfold RedisCache.contains hexists
  cases hget h (key_to_typestring k) <;> simp

theorem get_set_self (h : Hash) (k : RedisKey) (v : RedisValue)
    (d : Option RedisValue) :
    RedisCache.get (RedisCache.set h k v) k d = .ok (some v) := by
  unfold RedisCache.get RedisCache.set
  rw [hget_hset_self]
  simp [value_from_to]

theorem get_set_ne (h : Hash) (k k' : RedisKey) (v : RedisValue)
    (d : Option RedisValue) (hne : k' ≠ k) :
    RedisCache.get (RedisCache.set h k v) k' d = RedisCache.get h k' d := by
  unfold RedisCache.get RedisCache.set
  rw [hget_hset_ne _ _ _ _ (fun hts => hne (key_to_typestring_inj hts))]

theorem get_absent (h : Hash) (k : RedisKey) (d : Option RedisValue)
    (hab : hget h (key_to_typestring k) = none) :
    RedisCache.get h k d = .ok d := by
  unfold RedisCache.get
  rw [hab]

theorem get_present_default_irrel (h : Hash) (k : RedisKey) (v : RedisValue)
    (d : Option RedisValue)
    (hp : RedisCache.get h k none = .ok (some v)) :
    RedisCache.get h k d = .ok (some v) := by
  unfold RedisCache.get at hp ⊢
  cases hg : hget h (key_to_typestring k) with
  | none => rw [hg] at hp; exact absurd hp (by simp)
  | some ts => rw [hg] at hp; exact hp

theorem increment_of_get_int (h : Hash) (k : RedisKey) (n m : Int)
    (hn : RedisCache.get h k none = .ok (some (.int n))) :
    RedisCache.increment h k (PyNum.int m)
      = .ok (RedisCache.set h k (.int (n + m))) := by
  unfold RedisCache.increment
  rw [hn]
  rfl

theorem get_present_hget (h : Hash) (k : RedisKey) (v : RedisValue)
    (hp : RedisCache.get h k none = .ok (some v)) :
    ∃ ts, hget h (key_to_typestring k) = some ts ∧
      value_from_typestring ts = some v := by
  unfold RedisCache.get at hp
  cases hg : hget h (key_to_typestring k) with
  | none => rw [hg] at hp; exact absurd hp (by simp)
  | some ts =>
    rw [hg] at hp
    have hp' : (match value_from_typestring ts with
        | none => Except.error RedisError.corruptData
        | some w => Except.ok (some w)) = Except.ok (some v) := hp
    cases hv : value_from_typestring ts with
    | none => rw [hv] at hp'; exact absurd hp' (by simp)
    | some v' =>
      rw [hv] at hp'
      simp only [Except.ok.injEq, Option.some.injEq] at hp'
      exact ⟨ts, rfl, by rw [hv, hp']⟩

/-- Claim C1: for every supported key and value, `set(key, value)` followed by
`get(key)` returns exactly the value that was set with its type preserved; in
particular the integer `1` and the string `"1"` stored under different keys
read back as distinct typed values. -/
theorem c1_set_then_get_roundtrip :
    (∀ (h : Hash) (k : RedisKey) (v : RedisValue),
        RedisCache.get (RedisCache.set h k v) k none = .ok (some v)) ∧
    (∀ (h : Hash) (k₁ k₂ : RedisKey), k₁ ≠ k₂ →
        RedisCache.get (RedisCache.set (RedisCache.set h k₁ (.int 1)) k₂
            (.str "1")) k₁ none = .ok (some (.int 1)) ∧
        RedisCache.get (RedisCache.set (RedisCache.set h k₁ (.int 1)) k₂
            (.str "1")) k₂ none = .ok (some (.str "1")) ∧
        RedisCache.get (RedisCache.set (RedisCache.set h k₁ (.int 1)) k₂
            (.str "1")) k₁ none ≠
          RedisCache.get (RedisCache.set (RedisCache.set h k₁ (.int 1)) k₂
            (.str "1")) k₂ none) := by
  constructor
  · intro h k v
    exact get_set_self h k v none
  · intro h k₁ k₂ hne
    have h1 : RedisCache.get (RedisCache.set (RedisCache.set h k₁ (.int 1)) k₂
        (.str "1")) k₁ none = .ok (some (.int 1)) := by
      rw [get_set_ne _ _ _ _ _ hne]
      exact get_set_self h k₁ (.int 1) none
    have h2 : RedisCache.get (RedisCache.set (RedisCache.set h k₁ (.int 1)) k₂
        (.str "1")) k₂ none = .ok (some (.str "1")) :=
      get_set_self _ k₂ (.str "1") none
    refine ⟨h1, h2, ?_⟩
    rw [h1, h2]
    simp

/-- Witness for C1 at concrete keys `"a"` and `"b"`. -/
theorem c1_witness :
    (RedisKey.str "a" ≠ RedisKey.str "b") ∧
    RedisCache.get (RedisCache.set (RedisCache.set [] (RedisKey.str "a")
        (RedisValue.int 1)) (RedisKey.str "b") (RedisValue.str "1"))
        (RedisKey.str "a") none = .ok (some (RedisValue.int 1)) :=
  ⟨by decide, (c1_set_then_get_roundtrip.2 [] (RedisKey.str "a")
      (RedisKey.str "b") (by decide)).1⟩

/-- Counterexample to claim C2: a stored boolean is NOT rejected by
`increment` — Python's `isinstance(value, int)` is true for `bool`, so
`increment` on a stored `True` succeeds and writes back the integer `2`. -/
theorem c2_counterexample :
    RedisCache.increment (RedisCache.set [] (RedisKey.str "k")
        (RedisValue.bool true)) (RedisKey.str "k") (PyNum.int 1)
      ≠ Except.error RedisError.unsupportedType ∧
    RedisCache.increment (RedisCache.set [] (RedisKey.str "k")
        (RedisValue.bool true)) (RedisKey.str "k") (PyNum.int 1)
      = Except.ok (RedisCache.set (RedisCache.set [] (RedisKey.str "k")
          (RedisValue.bool true)) (RedisKey.str "k") (RedisValue.int 2)) := by
  constructor <;> decide

/-- Claim C2 (amended): for a stored string value, `increment` fails with the
unsupported-type error (the failure occurs before any write, so the entry is
unchanged); a stored boolean, however, passes the `isinstance` integer check
— `bool` is a subclass of `int` in Python — and for every amount is
incremented as its integer value plus the amount (an integer sum for an
integer amount, a float sum for a float amount) rather than rejected. -/
theorem c2_amended_increment_nonnumeric :
    (∀ (h : Hash) (k : RedisKey) (a : PyNum) (s : String),
        RedisCache.get h k none = .ok (some (.str s)) →
        RedisCache.increment h k a = .error .unsupportedType) ∧
    (∀ (h : Hash) (k : RedisKey) (b : Bool) (m : Int),
        RedisCache.get h k none = .ok (some (.bool b)) →
        RedisCache.increment h k (PyNum.int m)
          = .ok (RedisCache.set h k (.int (RedisCache.boolInt b + m)))) ∧
    (∀ (h : Hash) (k : RedisKey) (b : Bool) (q : Rat),
        RedisCache.get h k none = .ok (some (.bool b)) →
        RedisCache.increment h k (PyNum.float q)
          = .ok (RedisCache.set h k
              (.float ((RedisCache.boolInt b : Rat) + q)))) := by
  refine ⟨?_, ?_, ?_⟩
  · intro h k a s hs
    unfold RedisCache.increment
    rw [hs]
    rfl
  · intro h k b m hb
    unfold RedisCache.increment
    rw [hb]
    rfl
  · intro h k b q hb
    unfold RedisCache.increment
    rw [hb]
    rfl

/-- Witness for C2 (amended) at a stored string `"x"`. -/
theorem c2_witness :
    (RedisCache.get (RedisCache.set [] (RedisKey.str "k") (RedisValue.str "x"))
        (RedisKey.str "k") none = .ok (some (RedisValue.str "x"))) ∧
    RedisCache.increment (RedisCache.set [] (RedisKey.str "k")
        (RedisValue.str "x")) (RedisKey.str "k") (PyNum.int 1)
      = .error RedisError.unsupportedType :=
  ⟨get_set_self [] (RedisKey.str "k") (RedisValue.str "x") none,
   c2_amended_increment_nonnumeric.1 _ _ (PyNum.int 1) "x"
     (get_set_self [] (RedisKey.str "k") (RedisValue.str "x") none)⟩

/-- Claim C3: `increment` on an absent key fails with the missing-key error
(raised before any write); on a stored integer or float it adds the amount —
itself an integer or a float — and writes the Python sum back; incrementing
by `2` and then by `-5` leaves the stored number `3` less than it was, for
integer and float stores alike. -/
theorem c3_increment_missing_and_net :
    (∀ (h : Hash) (k : RedisKey) (a : PyNum),
        RedisCache.contains h k = false →
        RedisCache.increment h k a = .error .missingKey) ∧
    (∀ (h : Hash) (k : RedisKey) (n : Int) (a : PyNum),
        RedisCache.get h k none = .ok (some (.int n)) →
        RedisCache.increment h k a
          = .ok (RedisCache.set h k (match a with
              | PyNum.int m => RedisValue.int (n + m)
              | PyNum.float q => RedisValue.float ((n : Rat) + q)))) ∧
    (∀ (h : Hash) (k : RedisKey) (p : Rat) (a : PyNum),
        RedisCache.get h k none = .ok (some (.float p)) →
        RedisCache.increment h k a
          = .ok (RedisCache.set h k (match a with
              | PyNum.int m => RedisValue.float (p + (m : Rat))
              | PyNum.float q => RedisValue.float (p + q)))) ∧
    (∀ (h : Hash) (k : RedisKey) (n : Int),
        RedisCache.get h k none = .ok (some (.int n)) →
        ∃ h₂, (RedisCache.increment h k (PyNum.int 2)).bind
                (fun h₁ => RedisCache.increment h₁ k (PyNum.int (-5)))
              = .ok h₂ ∧
          RedisCache.get h₂ k none = .ok (some (.int (n - 3)))) ∧
    (∀ (h : Hash) (k : RedisKey) (p : Rat),
        RedisCache.get h k none = .ok (some (.float p)) →
        ∃ h₂, (RedisCache.increment h k (PyNum.int 2)).bind
                (fun h₁ => RedisCache.increment h₁ k (PyNum.int (-5)))
              = .ok h₂ ∧
          RedisCache.get h₂ k none = .ok (some (.float (p - 3)))) := by
  refine ⟨?_, ?_, ?_, ?_, ?_⟩
  · intro h k a hc
    unfold RedisCache.increment
    rw [get_absent h k none ((contains_false_iff h k).mp hc)]
  · intro h k n a hn
    unfold RedisCache.increment
    rw [hn]
    cases a <;> rfl
  · intro h k p a hp
    unfold RedisCache.increment
    rw [hp]
    cases a <;> rfl
  · intro h k n hn
    have h1 := increment_of_get_int h k n 2 hn
    have hg1 := get_set_self h k (RedisValue.int (n + 2)) none
    have h2 := increment_of_get_int (RedisCache.set h k (.int (n + 2))) k
      (n + 2) (-5) hg1
    refine ⟨RedisCache.set (RedisCache.set h k (.int (n + 2))) k
        (.int (n + 2 + -5)), ?_, ?_⟩
    · rw [h1]
      simpa using h2
    · have harith : n + 2 + -5 = n - 3 := by ring
      rw [harith]
      exact get_set_self _ k (RedisValue.int (n - 3)) none
  · intro h k p hp
    have h1 : RedisCache.increment h k (PyNum.int 2)
        = .ok (RedisCache.set h k (.float (p + ((2 : Int) : Rat)))) := by
      unfold RedisCache.increment
      rw [hp]
      rfl
    have hg1 := get_set_self h k
      (RedisValue.float (p + ((2 : Int) : Rat))) none
    have h2 : RedisCache.increment
        (RedisCache.set h k (.float (p + ((2 : Int) : Rat)))) k
        (PyNum.int (-5))
        = .ok (RedisCache.set
            (RedisCache.set h k (.float (p + ((2 : Int) : Rat)))) k
            (.float (p + ((2 : Int) : Rat) + ((-5 : Int) : Rat)))) := by
      unfold RedisCache.increment
      rw [hg1]
      rfl
    refine ⟨RedisCache.set
        (RedisCache.set h k (.float (p + ((2 : Int) : Rat)))) k
        (.float (p + ((2 : Int) : Rat) + ((-5 : Int) : Rat))), ?_, ?_⟩
    · rw [h1]
      simpa using h2
    · have harith : p + ((2 : Int) : Rat) + ((-5 : Int) : Rat) = p - 3 := by
        push_cast
        ring
      rw [harith]
      exact get_set_self _ k (RedisValue.float (p - 3)) none

/-- Witness for C3 at a stored integer `10`. -/
theorem c3_witness :
    (RedisCache.get (RedisCache.set [] (RedisKey.str "k") (RedisValue.int 10))
        (RedisKey.str "k") none = .ok (some (RedisValue.int 10))) ∧
    ∃ h₂, (RedisCache.increment (RedisCache.set [] (RedisKey.str "k")
            (RedisValue.int 10)) (RedisKey.str "k") (PyNum.int 2)).bind
            (fun h₁ => RedisCache.increment h₁ (RedisKey.str "k")
              (PyNum.int (-5))) = .ok h₂ ∧
      RedisCache.get h₂ (RedisKey.str "k") none
        = .ok (some (RedisValue.int (10 - 3))) :=
  ⟨get_set_self [] (RedisKey.str "k") (RedisValue.int 10) none,
   c3_increment_missing_and_net.2.2.2.1
     (RedisCache.set [] (RedisKey.str "k") (RedisValue.int 10))
     (RedisKey.str "k") 10 (get_set_self [] (RedisKey.str "k")
       (RedisValue.int 10) none)⟩

/-- Claim C4 (code bug): `delete` is annotated `-> None`, but the body
`return`s the integer reply of the `HDEL` command, so deleting a present key
returns `1`, not none.  The no-op half of the claim does hold: deleting an
absent key raises nothing and returns the namespace unchanged. -/
theorem c4_delete_returns_hdel_count :
    (RedisCache.delete (RedisCache.set [] (RedisKey.str "k")
        (RedisValue.int 1)) (RedisKey.str "k")).2 = 1 ∧
    RedisCache.delete [] (RedisKey.str "k") = ([], 0) := by
  constructor <;> decide

/-- Claim C5: `pop` on a present key returns its decoded value and leaves the
key absent; on an absent key it returns the default and leaves every entry of
the namespace unchanged. -/
theorem c5_pop_semantics :
    (∀ (h : Hash) (k : RedisKey) (v : RedisValue) (d : Option RedisValue),
        RedisCache.get h k none = .ok (some v) →
        ∃ h', RedisCache.pop h k d = .ok (some v, h') ∧
          RedisCache.contains h' k = false) ∧
    (∀ (h : Hash) (k : RedisKey) (d : Option RedisValue),
        RedisCache.contains h k = false →
        RedisCache.pop h k d = .ok (d, h)) := by
  constructor
  · intro h k v d hp
    refine ⟨(RedisCache.delete h k).1, ?_, ?_⟩
    · unfold RedisCache.pop
      rw [get_present_default_irrel h k v d hp]
    · unfold RedisCache.delete RedisCache.contains hexists
      rw [hget_hdel_self]
      rfl
  · intro h k d hc
    have hnone := (contains_false_iff h k).mp hc
    unfold RedisCache.pop
    rw [get_absent h k d hnone]
    unfold RedisCache.delete
    rw [hdel_absent h _ hnone]

/-- Witness for C5 on the empty namespace (absent-key branch). -/
theorem c5_witness :
    (RedisCache.contains [] (RedisKey.str "k") = false) ∧
    RedisCache.pop [] (RedisKey.str "k") none = .ok (none, []) :=
  ⟨rfl, c5_pop_semantics.2 [] (RedisKey.str "k") none rfl⟩

/-- Claim C6: `get` on an absent key returns the supplied default without
raising, and `none` when no default is supplied (`default = none`). -/
theorem c6_get_absent_returns_default :
    ∀ (h : Hash) (k : RedisKey) (d : Option RedisValue),
      RedisCache.contains h k = false →
      RedisCache.get h k d = .ok d := by
  intro h k d hc
  exact get_absent h k d ((contains_false_iff h k).mp hc)

/-- Witness for C6 on the empty namespace with no default. -/
theorem c6_witness :
    (RedisCache.contains [] (RedisKey.str "k") = false) ∧
    RedisCache.get [] (RedisKey.str "k") none = .ok none :=
  ⟨rfl, c6_get_absent_returns_default [] (RedisKey.str "k") none rfl⟩

/-- Claim C7: `decrement(key, amount)` behaves exactly as
`increment(key, -amount)` — identical resulting state and identical errors —
and on a stored integer it subtracts the amount. -/
theorem c7_decrement_refines_increment :
    (∀ (h : Hash) (k : RedisKey) (a : PyNum),
        RedisCache.decrement h k a = RedisCache.increment h k (pyNeg a)) ∧
    (∀ (h : Hash) (k : RedisKey) (n m : Int),
        RedisCache.get h k none = .ok (some (.int n)) →
        RedisCache.decrement h k (PyNum.int m)
          = .ok (RedisCache.set h k (.int (n - m)))) := by
  constructor
  · intro h k a
    rfl
  · intro h k n m hn
    have := increment_of_get_int h k n (-m) hn
    unfold RedisCache.decrement pyNeg
    rw [this]
    have harith : n + -m = n - m := by ring
    rw [harith]

/-- Witness for C7 at a stored integer `5` decremented by `2`. -/
theorem c7_witness :
    (RedisCache.get (RedisCache.set [] (RedisKey.str "k") (RedisValue.int 5))
        (RedisKey.str "k") none = .ok (some (RedisValue.int 5))) ∧
    RedisCache.decrement (RedisCache.set [] (RedisKey.str "k")
        (RedisValue.int 5)) (RedisKey.str "k") (PyNum.int 2)
      = .ok (RedisCache.set (RedisCache.set [] (RedisKey.str "k")
          (RedisValue.int 5)) (RedisKey.str "k") (RedisValue.int (5 - 2))) :=
  ⟨get_set_self [] (RedisKey.str "k") (RedisValue.int 5) none,
   c7_decrement_refines_increment.2 _ (RedisKey.str "k") 5 2
     (get_set_self [] (RedisKey.str "k") (RedisValue.int 5) none)⟩

/-- Claim C8: `update(mapping)` leaves the namespace in exactly the state
produced by one `set` per pair, so a subsequent `items()` decodes to the same
pairs in both cases.  (In this state-passing model the returned collection is
a value independent of the store, so mutating it cannot affect later `get`
calls.) -/
theorem c8_update_refines_sets :
    ∀ (h : Hash) (m : List (RedisKey × RedisValue)),
      RedisCache.update h m
          = m.foldl (fun hh kv => RedisCache.set hh kv.1 kv.2) h ∧
      RedisCache.items (RedisCache.update h m)
          = RedisCache.items
              (m.foldl (fun hh kv => RedisCache.set hh kv.1 kv.2) h) := by
  intro h m
  have hmain : RedisCache.update h m
      = m.foldl (fun hh kv => RedisCache.set hh kv.1 kv.2) h := by
    unfold RedisCache.update hmset dict_to_typestring
    rw [List.foldl_map]
    rfl
  exact ⟨hmain, by rw [hmain]⟩

/-- Claim C9: for a key holding a numeric value — integer or float — two
concurrent `increment(key, 1)` calls, interleaved in any way the namespace
lock permits (each call's read and write-back contiguous), leave the stored
value exactly `2` greater — no lost update. -/
theorem c9_concurrent_increments_no_lost_update :
    (∀ (sched : List Bool) (h : Hash) (k : RedisKey) (n : Int),
      sched.length = 4 → sched.count true = 2 → lockRespecting sched →
      RedisCache.get (runIncSched k (PyNum.int 1) sched 0 0
          ⟨RedisCache.set h k (.int n), .ok none, .ok none⟩).hash k none
        = .ok (some (.int (n + 2)))) ∧
    (∀ (sched : List Bool) (h : Hash) (k : RedisKey) (p : Rat),
      sched.length = 4 → sched.count true = 2 → lockRespecting sched →
      RedisCache.get (runIncSched k (PyNum.int 1) sched 0 0
          ⟨RedisCache.set h k (.float p), .ok none, .ok none⟩).hash k none
        = .ok (some (.float (p + 2)))) := by
  constructor
  · intro sched h k n hlen hcnt hlock
    rcases sched with _ | ⟨a, _ | ⟨b, _ | ⟨c, _ | ⟨d, _ | ⟨e, t⟩⟩⟩⟩⟩ <;>
      try simp at hlen
    cases a <;> cases b <;> cases c <;> cases d <;>
      first
      | (exfalso; revert hcnt hlock; decide)
      | (simp [runIncSched, incReadStep, incWriteStep, get_set_self,
          RedisCache.py_add, RedisCache.isinstance_int_or_float]
         try ring_nf)
  · intro sched h k p hlen hcnt hlock
    rcases sched with _ | ⟨a, _ | ⟨b, _ | ⟨c, _ | ⟨d, _ | ⟨e, t⟩⟩⟩⟩⟩ <;>
      try simp at hlen
    cases a <;> cases b <;> cases c <;> cases d <;>
      first
      | (exfalso; revert hcnt hlock; decide)
      | (simp [runIncSched, incReadStep, incWriteStep, get_set_self,
          RedisCache.py_add, RedisCache.isinstance_int_or_float]
         try ring_nf)

/-- Witness for C9 at the schedule where task A runs entirely before task B. -/
theorem c9_witness :
    ([false, false, true, true].length = 4) ∧
    ([false, false, true, true].count true = 2) ∧
    lockRespecting [false, false, true, true] ∧
    RedisCache.get (runIncSched (RedisKey.str "k") (PyNum.int 1)
        [false, false, true, true] 0 0
        ⟨RedisCache.set [] (RedisKey.str "k") (RedisValue.int 0),
          .ok none, .ok none⟩).hash (RedisKey.str "k") none
      = .ok (some (RedisValue.int (0 + 2))) :=
  ⟨rfl, rfl, by decide,
   c9_concurrent_increments_no_lost_update.1 [false, false, true, true] []
     (RedisKey.str "k") 0 rfl rfl (by decide)⟩

/-- Claim C10: `increment` with a float amount on a stored integer writes
back the Python sum, which is a float — the numeric type of the stored value
is not preserved, and a subsequent `get` returns a float. -/
theorem c10_increment_float_amount :
    ∀ (h : Hash) (k : RedisKey) (n : Int) (q : Rat),
      RedisCache.get h k none = .ok (some (.int n)) →
      RedisCache.increment h k (PyNum.float q)
          = .ok (RedisCache.set h k (.float ((n : Rat) + q))) ∧
      RedisCache.get (RedisCache.set h k (.float ((n : Rat) + q))) k none
          = .ok (some (.float ((n : Rat) + q))) := by
  intro h k n q hn
  constructor
  · unfold RedisCache.increment
    rw [hn]
    rfl
  · exact get_set_self h k (RedisValue.float ((n : Rat) + q)) none

/-- Witness for C10 at a stored integer `3` incremented by the float `1/2`. -/
theorem c10_witness :
    (RedisCache.get (RedisCache.set [] (RedisKey.str "k") (RedisValue.int 3))
        (RedisKey.str "k") none = .ok (some (RedisValue.int 3))) ∧
    (RedisCache.increment (RedisCache.set [] (RedisKey.str "k")
        (RedisValue.int 3)) (RedisKey.str "k") (PyNum.float ((1 : Rat) / 2))
      = .ok (RedisCache.set (RedisCache.set [] (RedisKey.str "k")
          (RedisValue.int 3)) (RedisKey.str "k")
          (RedisValue.float (((3 : Int) : Rat) + (1 : Rat) / 2))) ∧
     RedisCache.get (RedisCache.set (RedisCache.set [] (RedisKey.str "k")
          (RedisValue.int 3)) (RedisKey.str "k")
          (RedisValue.float (((3 : Int) : Rat) + (1 : Rat) / 2)))
        (RedisKey.str "k") none
      = .ok (some (RedisValue.float (((3 : Int) : Rat) + (1 : Rat) / 2)))) :=
  ⟨get_set_self [] (RedisKey.str "k") (RedisValue.int 3) none,
   c10_increment_float_amount _ (RedisKey.str "k") 3 ((1 : Rat) / 2)
     (get_set_self [] (RedisKey.str "k") (RedisValue.int 3) none)⟩
